import Mathlib

/-!
# HiveLoggerArduino/rtc.h : the `RTC_Time` record

The header declares one aggregate,

    struct RTC_Time { byte hour; byte minute; byte second; };

with three public fields of the Arduino type `byte` and no member functions.
The development below embeds the record, the conversions that happen when a
value is stored into a `byte`, aggregate initialisation, copy initialisation
and assignment to a single field, and proves the properties of the time value
that follow from that declaration.
-/

namespace HiveLogger

/-! ## The field type -/

/-- Arduino `byte`: the unsigned 8-bit integer type of the Arduino core
(`typedef uint8_t byte;`), the type of every field of `RTC_Time`.  A value is a
natural number below `2 ^ 8`. -/
structure byte where
  val : Nat
  isLt : val < 2 ^ 8
deriving DecidableEq

/-- Conversion of a (signed, arbitrarily large) integer to `byte`, as performed
when an `int` expression initialises or is assigned to a `byte` field: the
result is the value reduced modulo `2 ^ 8`. -/
def byte.ofInt (n : Int) : byte :=
  ⟨(n % 2 ^ 8).toNat, by
    have h1 : (0 : Int) ≤ n % 2 ^ 8 := Int.emod_nonneg n (by norm_num)
    have h2 : n % 2 ^ 8 < 2 ^ 8 := Int.emod_lt_of_pos n (by norm_num)
    have h3 : ((n % 2 ^ 8).toNat : Int) = n % 2 ^ 8 := Int.toNat_of_nonneg h1
    have h4 : ((n % 2 ^ 8).toNat : Int) < ((2 ^ 8 : Nat) : Int) := by
      rw [h3]; exact_mod_cast h2
    exact_mod_cast h4⟩

/-- Conversion of an unsigned integer to `byte`: reduction modulo `2 ^ 8`. -/
def byte.ofNat (n : Nat) : byte :=
  ⟨n % 2 ^ 8, Nat.mod_lt n (by norm_num)⟩

/-! ## The record -/

/-- The record `struct RTC_Time` of rtc.h: three `byte` fields, declared in the
order hour, minute, second, and nothing else. -/
structure RTC_Time where
  hour : byte
  minute : byte
  second : byte
deriving DecidableEq

/-- The single error kind the specification names for construction.  No
statement of rtc.h produces it; it is declared so that the outcome of
construction can be compared with it. -/
inductive RTC_Error where
  | OutOfRange
deriving DecidableEq

/-- Aggregate initialisation `RTC_Time t = {h, m, s};`.  The record has no
user-written constructor, so the three initialisers are converted to `byte`
and stored in declaration order.  There is no check and no failing path: the
outcome is always the `ok` alternative. -/
def RTC_Time.init (h m s : Int) : Except RTC_Error RTC_Time :=
  Except.ok { hour := byte.ofInt h, minute := byte.ofInt m, second := byte.ofInt s }

/-- Assignment `t.hour = v;` for a `byte` value `v`. -/
def RTC_Time.setHour (t : RTC_Time) (v : byte) : RTC_Time :=
  { t with hour := v }

/-- Assignment `t.minute = v;` for a `byte` value `v`. -/
def RTC_Time.setMinute (t : RTC_Time) (v : byte) : RTC_Time :=
  { t with minute := v }

/-- Assignment `t.second = v;` for a `byte` value `v`. -/
def RTC_Time.setSecond (t : RTC_Time) (v : byte) : RTC_Time :=
  { t with second := v }

/-- The implicitly defined copy constructor of the record: a memberwise copy
of the three fields. -/
def RTC_Time.copy (t : RTC_Time) : RTC_Time :=
  { hour := t.hour, minute := t.minute, second := t.second }

/-! ## Objects in memory

Copies of a record are distinct objects.  To speak about the effect of writing
to one object on another, objects are placed in a store indexed by location. -/

/-- A location holding an `RTC_Time` object (a variable of that type). -/
abbrev Var := Nat

/-- The objects currently held at each location. -/
abbrev Store := Var → RTC_Time

/-- Copy initialisation `RTC_Time dst = src;`: the object at `dst` becomes a
memberwise copy of the object at `src`; every other object is untouched. -/
def Store.copyTo (σ : Store) (dst src : Var) : Store :=
  fun x => if x = dst then (σ src).copy else σ x

/-- Statement `x.hour = v;` on the object at location `x`. -/
def Store.writeHour (σ : Store) (x : Var) (v : byte) : Store :=
  fun y => if y = x then (σ y).setHour v else σ y

/-- Statement `x.minute = v;` on the object at location `x`. -/
def Store.writeMinute (σ : Store) (x : Var) (v : byte) : Store :=
  fun y => if y = x then (σ y).setMinute v else σ y

/-- Statement `x.second = v;` on the object at location `x`. -/
def Store.writeSecond (σ : Store) (x : Var) (v : byte) : Store :=
  fun y => if y = x then (σ y).setSecond v else σ y

/-- The store in which every location holds 07:30:00. -/
def sampleStore : Store :=
  fun _ => { hour := byte.ofNat 7, minute := byte.ofNat 30, second := byte.ofNat 0 }

/-! ## Basic facts about `byte` -/

theorem byte.ext_val {a b : byte} (h : a.val = b.val) : a = b := by
  cases a; cases b; simp only [byte.mk.injEq]; exact h

theorem byte.ofInt_val (n : Int) : ((byte.ofInt n).val : Int) = n % 2 ^ 8 := by
  have h1 : (0 : Int) ≤ n % 2 ^ 8 := Int.emod_nonneg n (by norm_num)
  simp only [byte.ofInt]
  exact Int.toNat_of_nonneg h1

theorem byte.ofInt_val_of_range (n : Int) (h0 : 0 ≤ n) (h1 : n ≤ 255) :
    ((byte.ofInt n).val : Int) = n := by
  rw [byte.ofInt_val]
  exact Int.emod_eq_of_lt h0 (by omega)

theorem byte.ofInt_natCast (b : byte) : byte.ofInt (b.val : Int) = b := by
  apply byte.ext_val
  have h := byte.ofInt_val_of_range (b.val : Int) (by omega) (by have := b.isLt; omega)
  exact_mod_cast h

theorem RTC_Time.copy_eq (t : RTC_Time) : t.copy = t := rfl

theorem byte.val_le (b : byte) : b.val ≤ 255 := by
  have h := b.isLt
  omega

theorem RTC_Time.init_eq (h m s : Int) :
    RTC_Time.init h m s
      = Except.ok { hour := byte.ofInt h, minute := byte.ofInt m, second := byte.ofInt s } :=
  rfl

/-! ## Construction -/

/-- C1: for every triple `(h, m, s)` with `0 ≤ h ≤ 23`, `0 ≤ m ≤ 59` and
`0 ≤ s ≤ 59`, constructing an `RTC_Time` from it succeeds and reading the
fields back yields exactly `hour = h`, `minute = m`, `second = s`. -/
theorem init_valid_reads_back (h m s : Int)
    (hh0 : 0 ≤ h) (hh : h ≤ 23) (hm0 : 0 ≤ m) (hm : m ≤ 59) (hs0 : 0 ≤ s) (hs : s ≤ 59) :
    ∃ t : RTC_Time, RTC_Time.init h m s = Except.ok t ∧
      (t.hour.val : Int) = h ∧ (t.minute.val : Int) = m ∧ (t.second.val : Int) = s :=
  ⟨_, RTC_Time.init_eq h m s,
    byte.ofInt_val_of_range h hh0 (by omega),
    byte.ofInt_val_of_range m hm0 (by omega),
    byte.ofInt_val_of_range s hs0 (by omega)⟩

/-- C1 at the two ends of the day: midnight `(0, 0, 0)` and the last second
`(23, 59, 59)` are constructed and read back unchanged. -/
theorem init_valid_reads_back_witness :
    (∃ t : RTC_Time, RTC_Time.init 0 0 0 = Except.ok t ∧
      (t.hour.val : Int) = 0 ∧ (t.minute.val : Int) = 0 ∧ (t.second.val : Int) = 0) ∧
    (∃ t : RTC_Time, RTC_Time.init 23 59 59 = Except.ok t ∧
      (t.hour.val : Int) = 23 ∧ (t.minute.val : Int) = 59 ∧ (t.second.val : Int) = 59) :=
  ⟨init_valid_reads_back 0 0 0 (by decide) (by decide) (by decide) (by decide)
      (by decide) (by decide),
   init_valid_reads_back 23 59 59 (by decide) (by decide) (by decide) (by decide)
      (by decide) (by decide)⟩

/-- C2: `RTC_Time` enforces no range invariant.  For every triple of byte
values construction succeeds, never yields an error, and stores the three
values verbatim; `(24, 0, 0)` yields an instance whose hour reads 24; hence an
instance exists that violates `hour ≤ 23 ∧ minute ≤ 59 ∧ second ≤ 59`. -/
theorem init_stores_any_bytes :
    (∀ h m s : byte,
      RTC_Time.init h.val m.val s.val = Except.ok { hour := h, minute := m, second := s } ∧
      ∀ e : RTC_Error, RTC_Time.init h.val m.val s.val ≠ Except.error e) ∧
    (∃ t : RTC_Time, RTC_Time.init 24 0 0 = Except.ok t ∧
      t.hour.val = 24 ∧ t.minute.val = 0 ∧ t.second.val = 0) ∧
    (∃ t : RTC_Time, ¬ (t.hour.val ≤ 23 ∧ t.minute.val ≤ 59 ∧ t.second.val ≤ 59)) := by
  refine ⟨?_, ?_, ?_⟩
  · intro h m s
    have key : RTC_Time.init h.val m.val s.val
        = Except.ok { hour := h, minute := m, second := s } := by
      rw [RTC_Time.init_eq, byte.ofInt_natCast, byte.ofInt_natCast, byte.ofInt_natCast]
    refine ⟨key, ?_⟩
    intro e he
    rw [key] at he
    cases he
  · exact ⟨_, RTC_Time.init_eq 24 0 0, by decide, by decide, by decide⟩
  · exact ⟨{ hour := byte.ofNat 24, minute := byte.ofNat 0, second := byte.ofNat 0 },
      by decide⟩

/-! ## Copies are independent objects -/

/-- C5: after `RTC_Time y = x;` for two distinct objects, the copy compares
equal to the original, and overwriting any one field of the copy with `v`
leaves the original as it was, leaves the other two fields of the copy
unchanged, and makes the overwritten field of the copy read back `v`. -/
theorem copy_equal_and_independent (σ : Store) (x y : Var) (v : byte) (hxy : x ≠ y) :
    (σ.copyTo y x) y = (σ.copyTo y x) x ∧
    (σ.copyTo y x) x = σ x ∧
    (((σ.copyTo y x).writeHour y v) x = σ x ∧
      (((σ.copyTo y x).writeHour y v) y).hour = v ∧
      (((σ.copyTo y x).writeHour y v) y).minute = (σ x).minute ∧
      (((σ.copyTo y x).writeHour y v) y).second = (σ x).second) ∧
    (((σ.copyTo y x).writeMinute y v) x = σ x ∧
      (((σ.copyTo y x).writeMinute y v) y).hour = (σ x).hour ∧
      (((σ.copyTo y x).writeMinute y v) y).minute = v ∧
      (((σ.copyTo y x).writeMinute y v) y).second = (σ x).second) ∧
    (((σ.copyTo y x).writeSecond y v) x = σ x ∧
      (((σ.copyTo y x).writeSecond y v) y).hour = (σ x).hour ∧
      (((σ.copyTo y x).writeSecond y v) y).minute = (σ x).minute ∧
      (((σ.copyTo y x).writeSecond y v) y).second = v) := by
  simp [Store.copyTo, Store.writeHour, Store.writeMinute, Store.writeSecond,
    RTC_Time.copy, RTC_Time.setHour, RTC_Time.setMinute, RTC_Time.setSecond, hxy]

/-- C5 on a concrete store: location 1 becomes a copy of location 0 (07:30:00)
and one field of the copy is then overwritten with 5. -/
theorem copy_equal_and_independent_witness :
    ((0 : Var) ≠ 1) ∧
    ((sampleStore.copyTo 1 0) 1 = (sampleStore.copyTo 1 0) 0 ∧
    (sampleStore.copyTo 1 0) 0 = sampleStore 0 ∧
    (((sampleStore.copyTo 1 0).writeHour 1 (byte.ofNat 5)) 0 = sampleStore 0 ∧
      (((sampleStore.copyTo 1 0).writeHour 1 (byte.ofNat 5)) 1).hour = byte.ofNat 5 ∧
      (((sampleStore.copyTo 1 0).writeHour 1 (byte.ofNat 5)) 1).minute
        = (sampleStore 0).minute ∧
      (((sampleStore.copyTo 1 0).writeHour 1 (byte.ofNat 5)) 1).second
        = (sampleStore 0).second) ∧
    (((sampleStore.copyTo 1 0).writeMinute 1 (byte.ofNat 5)) 0 = sampleStore 0 ∧
      (((sampleStore.copyTo 1 0).writeMinute 1 (byte.ofNat 5)) 1).hour
        = (sampleStore 0).hour ∧
      (((sampleStore.copyTo 1 0).writeMinute 1 (byte.ofNat 5)) 1).minute = byte.ofNat 5 ∧
      (((sampleStore.copyTo 1 0).writeMinute 1 (byte.ofNat 5)) 1).second
        = (sampleStore 0).second) ∧
    (((sampleStore.copyTo 1 0).writeSecond 1 (byte.ofNat 5)) 0 = sampleStore 0 ∧
      (((sampleStore.copyTo 1 0).writeSecond 1 (byte.ofNat 5)) 1).hour
        = (sampleStore 0).hour ∧
      (((sampleStore.copyTo 1 0).writeSecond 1 (byte.ofNat 5)) 1).minute
        = (sampleStore 0).minute ∧
      (((sampleStore.copyTo 1 0).writeSecond 1 (byte.ofNat 5)) 1).second = byte.ofNat 5)) :=
  ⟨by decide, copy_equal_and_independent sampleStore 0 1 (byte.ofNat 5) (by decide)⟩

/-! ## Width of the fields -/

/-- C6: each field of `RTC_Time` is an unsigned 8-bit byte.  Every stored field
value lies in `0..255`; storing an integer `n` into a field reads back
`n mod 256`, which equals `n` exactly when `0 ≤ n ≤ 255`; storing `hour = 263`
reads back 7; every semantically valid value (`hour ≤ 23`, `minute ≤ 59`,
`second ≤ 59`) is stored without truncation. -/
theorem fields_are_bytes :
    (∀ t : RTC_Time, t.hour.val ≤ 255 ∧ t.minute.val ≤ 255 ∧ t.second.val ≤ 255) ∧
    (∀ (t : RTC_Time) (n : Int),
      ((t.setHour (byte.ofInt n)).hour.val : Int) = n % 256 ∧
      ((t.setMinute (byte.ofInt n)).minute.val : Int) = n % 256 ∧
      ((t.setSecond (byte.ofInt n)).second.val : Int) = n % 256) ∧
    (∀ n : Int, ((byte.ofInt n).val : Int) = n ↔ (0 ≤ n ∧ n ≤ 255)) ∧
    (∀ t : RTC_Time, (t.setHour (byte.ofInt 263)).hour.val = 7) ∧
    (∀ (t : RTC_Time) (n : Int), 0 ≤ n → n ≤ 23 →
      ((t.setHour (byte.ofInt n)).hour.val : Int) = n) ∧
    (∀ (t : RTC_Time) (n : Int), 0 ≤ n → n ≤ 59 →
      ((t.setMinute (byte.ofInt n)).minute.val : Int) = n ∧
      ((t.setSecond (byte.ofInt n)).second.val : Int) = n) := by
  refine ⟨?_, ?_, ?_, ?_, ?_, ?_⟩
  · intro t
    exact ⟨t.hour.val_le, t.minute.val_le, t.second.val_le⟩
  · intro t n
    have h := byte.ofInt_val n
    norm_num at h
    exact ⟨h, h, h⟩
  · intro n
    constructor
    · intro h
      have hb := (byte.ofInt n).val_le
      omega
    · rintro ⟨h0, h1⟩
      exact byte.ofInt_val_of_range n h0 h1
  · intro t
    show (byte.ofInt 263).val = 7
    decide
  · intro t n h0 h1
    exact byte.ofInt_val_of_range n h0 (by omega)
  · intro t n h0 h1
    exact ⟨byte.ofInt_val_of_range n h0 (by omega), byte.ofInt_val_of_range n h0 (by omega)⟩

end HiveLogger
